import Mathlib

/-!
Verification of the segment-tagging, weighted-loss and training-harness logic
of `src/train_gen.py` (repository visionshao/GPT2), via a shallow embedding.

Token ids are modelled as `Int`, scalar loss values as `ℚ`.  Definitions come
first, then the theorems about them.
-/

namespace GPT2

/-! ## Definitions: segment tagger

`GPT2Summ.prepare_inputs_for_generation` (src/train_gen.py, lines 51-64) scans
each row of `input_ids` left to right, keeping `last_special_token`
(initialized to `self.know_id`); at a special token (a member of
`[self.know_id] + self.user_id`) it appends that token itself and updates
`last_special_token`, otherwise it appends `last_special_token`. -/

/-- Membership test `ids[j] in ([self.know_id] + self.user_id)` (line 58). -/
def isSpecial (know_id : Int) (user_id : List Int) (t : Int) : Bool :=
  decide (t ∈ know_id :: user_id)

/-- Inner loop of the scan (lines 56-62): `last` is `last_special_token`. -/
def typeIdsAux (know_id : Int) (user_id : List Int) : Int → List Int → List Int
  | _, [] => []
  | last, t :: rest =>
    if isSpecial know_id user_id t then t :: typeIdsAux know_id user_id t rest
    else last :: typeIdsAux know_id user_id last rest

/-- Segment labels (`type_ids`) of one row, with `last_special_token`
initialized to `know_id` (line 56). -/
def typeIdsRow (know_id : Int) (user_id : List Int) (ids : List Int) : List Int :=
  typeIdsAux know_id user_id know_id ids

/-- Spec-side definition: the nearest special token at or before position `i`
(left-to-right scan over the first `i+1` tokens, keeping the last special one),
defaulting to the knowledge marker when none occurs. -/
def nearestPrecSpecial (know_id : Int) (user_id : List Int) (ids : List Int) (i : Nat) : Int :=
  (ids.take (i + 1)).foldl (fun acc t => if isSpecial know_id user_id t then t else acc) know_id

/-! ## Definitions: weighted sequence loss

`src/train_gen.py` line 187 builds
`gen_criterion = lambda logits, targets, weights: weighted_sequence_loss(logits, targets, weights, ce, pad_idx=-1)`
where `ce` (line 186) is unreduced elementwise cross-entropy.
`weighted_sequence_loss` itself is imported from `model.util` (line 28), whose
source is not part of this repository snapshot, so it is modelled from the
spec (section 4.2).  The elementwise cross-entropy is kept abstract as a
function `ce : α → Int → ℚ` from one position's logits and its target token to
a scalar, exactly as the code passes it in as a callable. -/

/-- Modelled from the spec: the elementwise stage of `model.util.weighted_sequence_loss`
(missing from the snapshot) — per-position cross-entropy with entries whose
target equals the ignore sentinel zeroed out. -/
def maskedCE {α : Type} (ce : α → Int → ℚ) (pad_idx : Int)
    (logits : List α) (targets : List Int) : List ℚ :=
  List.zipWith (fun l t => if t = pad_idx then 0 else ce l t) logits targets

/-- Modelled from the spec: one example's contribution — the masked entries
multiplied by the example's weight and summed over the sequence dimension. -/
def exampleLoss {α : Type} (ce : α → Int → ℚ) (pad_idx : Int)
    (logits : List α) (targets : List Int) (w : ℚ) : ℚ :=
  w * (maskedCE ce pad_idx logits targets).sum

/-- Modelled from the spec: the per-example losses of a batch. -/
def exampleLosses {α : Type} (ce : α → Int → ℚ) (pad_idx : Int) :
    List (List α) → List (List Int) → List ℚ → List ℚ
  | l :: L, t :: T, w :: W => exampleLoss ce pad_idx l t w :: exampleLosses ce pad_idx L T W
  | _, _, _ => []

/-- Modelled from the spec: `model.util.weighted_sequence_loss` (missing from
the snapshot) — masked weighted cross-entropy summed over the sequence
dimension and averaged over the batch dimension. -/
def weighted_sequence_loss {α : Type} (ce : α → Int → ℚ) (pad_idx : Int)
    (logits : List (List α)) (targets : List (List Int)) (weights : List ℚ) : ℚ :=
  (exampleLosses ce pad_idx logits targets weights).sum / (targets.length : ℚ)

/-- The loss actually used by the training code: `gen_criterion`
(src/train_gen.py line 187), i.e. the weighted sequence loss with the ignore
sentinel fixed to `pad_idx = -1`. -/
def gen_criterion {α : Type} (ce : α → Int → ℚ)
    (logits : List (List α)) (targets : List (List Int)) (weights : List ℚ) : ℚ :=
  weighted_sequence_loss ce (-1) logits targets weights

/-- The perplexity division `MeanLoss = test_loss / n_token`
(src/train_gen.py line 278), exactly as written there: the division carries no
guard, so a zero accumulated token count is a `ZeroDivisionError` in Python,
modelled as `none`; only a nonzero count yields a value. -/
def MeanLoss (test_loss : ℚ) (n : Nat) : Option ℚ :=
  if n = 0 then none else some (test_loss / (n : ℚ))

/-- Plain (unweighted, unmasked) elementwise cross-entropy of one example,
summed over the sequence, as named by the spec's comparison property. -/
def plain_ce_loss {α : Type} (ce : α → Int → ℚ) (logits : List α) (targets : List Int) : ℚ :=
  (List.zipWith ce logits targets).sum

/-- Mean over the batch of the plain cross-entropy. -/
def plain_ce_batch_mean {α : Type} (ce : α → Int → ℚ)
    (logits : List (List α)) (targets : List (List Int)) : ℚ :=
  (List.zipWith (plain_ce_loss ce) logits targets).sum / (targets.length : ℚ)

/-! ## Definitions: checkpoint selection (main loop, src/train_gen.py lines 296-314) -/

/-- One evaluation round (lines 307-313): a checkpoint is written exactly when
the round's validation loss is strictly below the tracked best, which is then
updated to that loss. -/
def checkpointStep (best loss : ℚ) : Bool × ℚ :=
  if loss < best then (true, loss) else (false, best)

/-- Save decisions of successive evaluation rounds from a given tracked best. -/
def checkpointSavesAux : ℚ → List ℚ → List Bool
  | _, [] => []
  | best, l :: rest =>
    (checkpointStep best l).1 :: checkpointSavesAux (checkpointStep best l).2 rest

/-- Per-round save decisions of the training loop, with `best_loss`
initialized to `99999.9` (line 297). -/
def checkpointSaves (losses : List ℚ) : List Bool :=
  checkpointSavesAux (999999 / 10) losses

/-- The claim as stated: at every round after the first, a checkpoint is saved
iff the round's validation loss is strictly below the least previously seen
validation loss. -/
def savedIffBelowSeenMin (losses : List ℚ) : Prop :=
  ∀ i, i < losses.length → 0 < i →
    ((checkpointSaves losses).getD i false = true ↔
      losses.getD i 0 < (losses.take i).foldl min (losses.getD 0 0))

/-! ## Definitions: evaluation split dispatch (dev_step, src/train_gen.py lines 221-227) -/

/-- The two designated evaluation splits and their loaders. -/
inductive TestLoader
  | seen
  | unseen
deriving DecidableEq

/-- The split dispatch at the top of `dev_step` (lines 222-227): the
designated names select their loader, any other name raises `ValueError`
(modelled as `Except.error`). -/
def dev_step_select (split : String) : Except Unit TestLoader :=
  if split = "test_seen" then Except.ok TestLoader.seen
  else if split = "test_unseen" then Except.ok TestLoader.unseen
  else Except.error ()

/-! ## Definitions: gradient clipping and warning (train_step, src/train_gen.py lines 209-214) -/

/-- Observable actions of the tail of `train_step`; `abort`, `retry` and
`rollback` never occur in the code and exist only to state their absence. -/
inductive TrainEvent
  | clipGrads
  | warnExplodingGradients
  | optimizerStep
  | zeroGrad
  | abort
  | retry
  | rollback
deriving DecidableEq

/-- Straight-line tail of `train_step` after the backward passes: gradient
clipping always runs (lines 209-210), the warning is printed exactly when the
returned gradient norm is at least `1e2` (lines 211-212), then the optimizer
step and the gradient reset run unconditionally (lines 213-214). -/
def train_step_tail (grad_norm : ℚ) : List TrainEvent :=
  [TrainEvent.clipGrads] ++
    (if grad_norm ≥ 100 then [TrainEvent.warnExplodingGradients] else []) ++
    [TrainEvent.optimizerStep, TrainEvent.zeroGrad]

/-! ## Definitions: truncation under `past` (prepare_inputs_for_generation, lines 66-76) -/

/-- Result of `prepare_inputs_for_generation`: `token_type_ids` is present in
the returned inputs only when `self.segment` is set (lines 71-74). -/
structure PreparedInputs where
  input_ids : List (List Int)
  token_type_ids : Option (List (List Int))
deriving DecidableEq

/-- One row of `x[:, -1].unsqueeze(-1)`: the final position only. -/
def lastCol (row : List Int) : List Int := row.drop (row.length - 1)

/-- `GPT2Summ.prepare_inputs_for_generation` (lines 51-76): compute the
segment labels of every row, truncate both tensors to the final position when
a truthy `past` is present in `kwargs` (lines 66-69), and return
`token_type_ids` only when `self.segment` is set. -/
def prepare_inputs_for_generation (know_id : Int) (user_id : List Int)
    (segment past : Bool) (input_ids : List (List Int)) : PreparedInputs :=
  let tti := input_ids.map (typeIdsRow know_id user_id)
  let ids2 := if past then input_ids.map lastCol else input_ids
  let tti2 := if past then tti.map lastCol else tti
  { input_ids := ids2, token_type_ids := if segment then some tti2 else none }

/-! ## Theorems: segment tagger -/

theorem isSpecial_iff (know_id : Int) (user_id : List Int) (t : Int) :
    isSpecial know_id user_id t = true ↔ t ∈ know_id :: user_id := by
  simp [isSpecial]

theorem typeIdsAux_length (know_id : Int) (user_id : List Int) :
    ∀ (ids : List Int) (last : Int), (typeIdsAux know_id user_id last ids).length = ids.length := by
  intro ids
  induction ids with
  | nil => intro last; rfl
  | cons t rest ih =>
    intro last
    by_cases h : isSpecial know_id user_id t
    · simp [typeIdsAux, h, ih]
    · simp [typeIdsAux, h, ih]

theorem typeIdsAux_getD (know_id : Int) (user_id : List Int) :
    ∀ (ids : List Int) (last : Int) (i : Nat), i < ids.length →
      (typeIdsAux know_id user_id last ids).getD i 0 =
        (ids.take (i + 1)).foldl
          (fun acc t => if isSpecial know_id user_id t then t else acc) last := by
  intro ids
  induction ids with
  | nil => intro last i hi; simp at hi
  | cons t rest ih =>
    intro last i hi
    by_cases h : isSpecial know_id user_id t
    · cases i with
      | zero => simp [typeIdsAux, h]
      | succ j =>
        have hj : j < rest.length := by simpa using hi
        rw [typeIdsAux, if_pos h, List.getD_cons_succ, List.take_succ_cons, List.foldl_cons]
        simpa [h] using ih t j hj
    · cases i with
      | zero => simp [typeIdsAux, h]
      | succ j =>
        have hj : j < rest.length := by simpa using hi
        rw [typeIdsAux, if_neg h, List.getD_cons_succ, List.take_succ_cons, List.foldl_cons]
        simpa [h] using ih last j hj

theorem typeIdsAux_mem (know_id : Int) (user_id : List Int) :
    ∀ (ids : List Int) (last : Int), last ∈ know_id :: user_id →
      ∀ x ∈ typeIdsAux know_id user_id last ids, x ∈ know_id :: user_id := by
  intro ids
  induction ids with
  | nil => intro last _ x hx; simp [typeIdsAux] at hx
  | cons t rest ih =>
    intro last hlast x hx
    by_cases h : isSpecial know_id user_id t
    · rw [typeIdsAux, if_pos h] at hx
      rcases List.mem_cons.mp hx with rfl | hx
      · exact (isSpecial_iff know_id user_id x).mp h
      · exact ih t ((isSpecial_iff know_id user_id t).mp h) x hx
    · rw [typeIdsAux, if_neg h] at hx
      rcases List.mem_cons.mp hx with rfl | hx
      · exact hlast
      · exact ih last hlast x hx

theorem typeIdsAux_special_pos (know_id : Int) (user_id : List Int) :
    ∀ (ids : List Int) (last : Int) (i : Nat), i < ids.length →
      isSpecial know_id user_id (ids.getD i 0) = true →
      (typeIdsAux know_id user_id last ids).getD i 0 = ids.getD i 0 := by
  intro ids
  induction ids with
  | nil => intro last i hi; simp at hi
  | cons t rest ih =>
    intro last i hi hsp
    cases i with
    | zero =>
      simp only [List.getD_cons_zero] at hsp ⊢
      simp [typeIdsAux, hsp]
    | succ j =>
      have hj : j < rest.length := by simpa using hi
      simp only [List.getD_cons_succ] at hsp ⊢
      by_cases h : isSpecial know_id user_id t
      · rw [typeIdsAux, if_pos h, List.getD_cons_succ]
        exact ih t j hj hsp
      · rw [typeIdsAux, if_neg h, List.getD_cons_succ]
        exact ih last j hj hsp

/-- C1: the segment tagger labels every position with the nearest special token
at or before it (knowledge marker when none precedes it), and in particular
tokens `[K, t1, U1, t2, U2, t3]` are labelled `[K, K, U1, U1, U2, U2]`. -/
theorem segment_tagger_nearest_preceding :
    (∀ (know_id : Int) (user_id : List Int) (ids : List Int) (i : Nat),
        i < ids.length →
        (typeIdsRow know_id user_id ids).getD i 0 = nearestPrecSpecial know_id user_id ids i) ∧
    typeIdsRow 50257 [50258, 50259] [50257, 7, 50258, 8, 50259, 9] =
      [50257, 50257, 50258, 50258, 50259, 50259] := by
  constructor
  · intro know_id user_id ids i hi
    exact typeIdsAux_getD know_id user_id ids know_id i hi
  · decide

/-- Witness for C1 at a concrete input. -/
theorem segment_tagger_nearest_preceding_witness :
    (typeIdsRow 3 [4, 5] [3, 10, 4, 11]).getD 3 0 = nearestPrecSpecial 3 [4, 5] [3, 10, 4, 11] 3 :=
  segment_tagger_nearest_preceding.1 3 [4, 5] [3, 10, 4, 11] 3 (by decide)

/-- C2: the label sequence has the same length as the token sequence, and every
label is one of the three configured special-token identifiers. -/
theorem segment_labels_length_and_range :
    ∀ (know_id u1 u2 : Int) (ids : List Int),
      (typeIdsRow know_id [u1, u2] ids).length = ids.length ∧
      ∀ x ∈ typeIdsRow know_id [u1, u2] ids, x = know_id ∨ x = u1 ∨ x = u2 := by
  intro know_id u1 u2 ids
  constructor
  · exact typeIdsAux_length know_id [u1, u2] ids know_id
  · intro x hx
    have h := typeIdsAux_mem know_id [u1, u2] ids know_id (by simp) x hx
    simpa using h

/-- Witness for C2 at a concrete input. -/
theorem segment_labels_length_and_range_witness :
    (typeIdsRow 1 [2, 3] [1, 9, 2, 4]).length = [1, 9, 2, 4].length ∧
      ((1 : Int) = 1 ∨ (1 : Int) = 2 ∨ (1 : Int) = 3) :=
  ⟨(segment_labels_length_and_range 1 2 3 [1, 9, 2, 4]).1,
   (segment_labels_length_and_range 1 2 3 [1, 9, 2, 4]).2 1 (by decide)⟩

/-- C3: a special token's own position is labelled with that special token
itself (inclusive tagging), not the previously seen label. -/
theorem special_position_labelled_inclusively :
    ∀ (know_id : Int) (user_id : List Int) (ids : List Int) (i : Nat),
      i < ids.length → ids.getD i 0 ∈ know_id :: user_id →
      (typeIdsRow know_id user_id ids).getD i 0 = ids.getD i 0 := by
  intro know_id user_id ids i hi hsp
  exact typeIdsAux_special_pos know_id user_id ids know_id i hi
    ((isSpecial_iff know_id user_id (ids.getD i 0)).mpr hsp)

/-- Witness for C3 at a concrete input. -/
theorem special_position_labelled_inclusively_witness :
    (typeIdsRow 1 [2, 3] [1, 9, 3, 4]).getD 2 0 = [1, 9, 3, 4].getD 2 0 :=
  special_position_labelled_inclusively 1 [2, 3] [1, 9, 3, 4] 2 (by decide) (by decide)

/-! ## Theorems: weighted sequence loss -/

theorem maskedCE_sum_all_pad {α : Type} (ce : α → Int → ℚ) (pad_idx : Int) :
    ∀ (logits : List α) (targets : List Int),
      (∀ x ∈ targets, x = pad_idx) →
      (maskedCE ce pad_idx logits targets).sum = 0 := by
  intro logits
  induction logits with
  | nil => intro targets _; simp [maskedCE]
  | cons l L ih =>
    intro targets hT
    cases targets with
    | nil => simp [maskedCE]
    | cons t T =>
      have ht : t = pad_idx := hT t (by simp)
      have hT' : ∀ x ∈ T, x = pad_idx := fun x hx => hT x (by simp [hx])
      simp only [maskedCE, List.zipWith_cons_cons, List.sum_cons] at *
      rw [if_pos ht, ih T hT', zero_add]

theorem exampleLosses_sum_all_pad {α : Type} (ce : α → Int → ℚ) (pad_idx : Int) :
    ∀ (logits : List (List α)) (targets : List (List Int)) (weights : List ℚ),
      (∀ t ∈ targets, ∀ x ∈ t, x = pad_idx) →
      (exampleLosses ce pad_idx logits targets weights).sum = 0 := by
  intro logits
  induction logits with
  | nil => intro targets weights _; cases targets <;> cases weights <;> simp [exampleLosses]
  | cons l L ih =>
    intro targets weights hT
    cases targets with
    | nil => cases weights <;> simp [exampleLosses]
    | cons t T =>
      cases weights with
      | nil => simp [exampleLosses]
      | cons w W =>
        have ht : ∀ x ∈ t, x = pad_idx := hT t (by simp)
        have hT' : ∀ u ∈ T, ∀ x ∈ u, x = pad_idx := fun u hu => hT u (by simp [hu])
        simp only [exampleLosses, List.sum_cons, exampleLoss]
        rw [maskedCE_sum_all_pad ce pad_idx l t ht, ih T W hT']
        ring

/-- C4 (code bug): for a batch whose target positions all equal the ignore
sentinel `-1`, the modelled weighted sequence loss is 0; however the
perplexity division `MeanLoss = test_loss / n_token` (src/train_gen.py line
278) is not guarded, so at a zero accumulated token count it raises a
`ZeroDivisionError` (modelled as `none`) rather than treating 0/0 as 0 as the
claim and the spec require. -/
theorem all_ignored_division_error :
    gen_criterion (fun (l : ℚ) (t : Int) => l + t) [[5], [7, 8]] [[-1], [-1, -1]] [2, 3] = 0 ∧
      MeanLoss
        (gen_criterion (fun (l : ℚ) (t : Int) => l + t) [[5], [7, 8]] [[-1], [-1, -1]] [2, 3])
        0 = none := by
  constructor
  · unfold gen_criterion weighted_sequence_loss
    rw [exampleLosses_sum_all_pad (fun (l : ℚ) (t : Int) => l + t) (-1)
      [[5], [7, 8]] [[-1], [-1, -1]] [2, 3] (by decide), zero_div]
  · rfl

theorem zipWith_sum_eq_range_sum {α : Type} (f : α → Int → ℚ) (d : α) :
    ∀ (l : List α) (t : List Int), l.length = t.length →
      (List.zipWith f l t).sum = ∑ j in Finset.range t.length, f (l.getD j d) (t.getD j 0) := by
  intro l
  induction l with
  | nil =>
    intro t h
    have : t = [] := List.length_eq_zero.mp h.symm
    subst this
    simp
  | cons a l ih =>
    intro t h
    cases t with
    | nil => simp at h
    | cons x t =>
      have h' : l.length = t.length := by simpa using h
      rw [List.zipWith_cons_cons, List.sum_cons, ih t h', List.length_cons,
        Finset.sum_range_succ']
      simp [add_comm]

theorem exampleLosses_sum_eq {α : Type} (ce : α → Int → ℚ) (pad_idx : Int) :
    ∀ (targets : List (List Int)) (logits : List (List α)) (weights : List ℚ),
      logits.length = targets.length → weights.length = targets.length →
      (exampleLosses ce pad_idx logits targets weights).sum =
        ∑ i in Finset.range targets.length,
          weights.getD i 0 * (maskedCE ce pad_idx (logits.getD i []) (targets.getD i [])).sum := by
  intro targets
  induction targets with
  | nil => intro L W _ _; cases L <;> cases W <;> simp [exampleLosses]
  | cons t T ih =>
    intro L W hL hW
    cases L with
    | nil => simp at hL
    | cons l L =>
      cases W with
      | nil => simp at hW
      | cons w W =>
        have hL' : L.length = T.length := by simpa using hL
        have hW' : W.length = T.length := by simpa using hW
        show exampleLoss ce pad_idx l t w + (exampleLosses ce pad_idx L T W).sum = _
        rw [ih L W hL' hW', List.length_cons, Finset.sum_range_succ']
        simp [exampleLoss, add_comm]

/-- C5: the weighted sequence loss is the elementwise cross-entropy with
ignore-sentinel positions zeroed, weighted per example, summed over the
sequence dimension and averaged over the batch dimension, as one scalar. -/
theorem weighted_loss_closed_form {α : Type} (ce : α → Int → ℚ) (pad_idx : Int) (d : α)
    (logits : List (List α)) (targets : List (List Int)) (weights : List ℚ)
    (hL : logits.length = targets.length) (hW : weights.length = targets.length)
    (hrow : ∀ i, i < targets.length → (logits.getD i []).length = (targets.getD i []).length) :
    weighted_sequence_loss ce pad_idx logits targets weights =
      (∑ i in Finset.range targets.length,
        weights.getD i 0 *
          ∑ j in Finset.range (targets.getD i []).length,
            (if (targets.getD i []).getD j 0 = pad_idx then 0
             else ce ((logits.getD i []).getD j d) ((targets.getD i []).getD j 0))) /
      (targets.length : ℚ) := by
  unfold weighted_sequence_loss
  rw [exampleLosses_sum_eq ce pad_idx targets logits weights hL hW]
  congr 1
  refine Finset.sum_congr rfl ?_
  intro i hi
  have hi' : i < targets.length := Finset.mem_range.mp hi
  rw [maskedCE, zipWith_sum_eq_range_sum _ d _ _ (hrow i hi')]

/-- Witness for C5 at a concrete input. -/
theorem weighted_loss_closed_form_witness :
    weighted_sequence_loss (fun (l : ℚ) (t : Int) => l + t) (-1)
        [[1, 2], [3]] [[-1, 5], [7]] [2, 3] =
      (∑ i in Finset.range ([[-1, 5], [7]] : List (List Int)).length,
        ([2, 3] : List ℚ).getD i 0 *
          ∑ j in Finset.range (([[-1, 5], [7]] : List (List Int)).getD i []).length,
            (if (([[-1, 5], [7]] : List (List Int)).getD i []).getD j 0 = -1 then 0
             else (fun (l : ℚ) (t : Int) => l + t)
               ((([[1, 2], [3]] : List (List ℚ)).getD i []).getD j 0)
               ((([[-1, 5], [7]] : List (List Int)).getD i []).getD j 0))) /
      (([[-1, 5], [7]] : List (List Int)).length : ℚ) :=
  weighted_loss_closed_form (fun (l : ℚ) (t : Int) => l + t) (-1) 0
    [[1, 2], [3]] [[-1, 5], [7]] [2, 3] rfl rfl (by decide)

theorem maskedCE_eq_zipWith {α : Type} (ce : α → Int → ℚ) (pad_idx : Int) :
    ∀ (l : List α) (t : List Int), (∀ x ∈ t, x ≠ pad_idx) →
      maskedCE ce pad_idx l t = List.zipWith ce l t := by
  intro l
  induction l with
  | nil => intro t _; simp [maskedCE]
  | cons a l ih =>
    intro t ht
    cases t with
    | nil => simp [maskedCE]
    | cons x t =>
      have hx : x ≠ pad_idx := ht x (by simp)
      have ht' : ∀ y ∈ t, y ≠ pad_idx := fun y hy => ht y (by simp [hy])
      show (if x = pad_idx then 0 else ce a x) :: maskedCE ce pad_idx l t = _
      rw [List.zipWith_cons_cons, if_neg hx, ih t ht']

theorem exampleLosses_eq_plain {α : Type} (ce : α → Int → ℚ) (pad_idx : Int) :
    ∀ (targets : List (List Int)) (logits : List (List α)) (weights : List ℚ),
      weights.length = targets.length →
      (∀ w ∈ weights, w = 1) →
      (∀ t ∈ targets, ∀ x ∈ t, x ≠ pad_idx) →
      exampleLosses ce pad_idx logits targets weights =
        List.zipWith (plain_ce_loss ce) logits targets := by
  intro targets
  induction targets with
  | nil => intro L W _ _ _; cases L <;> cases W <;> simp [exampleLosses]
  | cons t T ih =>
    intro L W hW hW1 hT
    cases W with
    | nil => simp at hW
    | cons w W =>
      cases L with
      | nil => simp [exampleLosses]
      | cons l L =>
        have hw : w = 1 := hW1 w (by simp)
        show exampleLoss ce pad_idx l t w :: exampleLosses ce pad_idx L T W = _
        rw [List.zipWith_cons_cons]
        congr 1
        · rw [exampleLoss, maskedCE_eq_zipWith ce pad_idx l t (hT t (by simp)), hw, one_mul]
          rfl
        · exact ih L W (by simpa using hW) (fun u hu => hW1 u (by simp [hu]))
            (fun u hu => hT u (by simp [hu]))

/-- C6: when every per-example weight is 1 and no target position equals the
ignore sentinel, the weighted sequence loss equals the mean over the batch of
the plain (unweighted, unmasked) cross-entropy. -/
theorem unit_weights_no_ignore_plain_mean {α : Type} (ce : α → Int → ℚ) (pad_idx : Int)
    (logits : List (List α)) (targets : List (List Int)) (weights : List ℚ)
    (hW : weights.length = targets.length)
    (hW1 : ∀ w ∈ weights, w = 1)
    (hT : ∀ t ∈ targets, ∀ x ∈ t, x ≠ pad_idx) :
    weighted_sequence_loss ce pad_idx logits targets weights =
      plain_ce_batch_mean ce logits targets := by
  unfold weighted_sequence_loss plain_ce_batch_mean
  rw [exampleLosses_eq_plain ce pad_idx targets logits weights hW hW1 hT]

/-- Witness for C6 at a concrete input. -/
theorem unit_weights_no_ignore_plain_mean_witness :
    weighted_sequence_loss (fun (l : ℚ) (t : Int) => l + t) (-1) [[1], [2]] [[4], [6]] [1, 1] =
      plain_ce_batch_mean (fun (l : ℚ) (t : Int) => l + t) [[1], [2]] [[4], [6]] :=
  unit_weights_no_ignore_plain_mean (fun (l : ℚ) (t : Int) => l + t) (-1)
    [[1], [2]] [[4], [6]] [1, 1] rfl (by decide) (by decide)

/-! ## Theorems: checkpoint selection -/

theorem checkpointStep_snd (best l : ℚ) : (checkpointStep best l).2 = min best l := by
  by_cases h : l < best
  · simp [checkpointStep, h, min_eq_right (le_of_lt h)]
  · simp [checkpointStep, h, min_eq_left (le_of_not_lt h)]

theorem checkpointSavesAux_getD :
    ∀ (losses : List ℚ) (best : ℚ) (i : Nat), i < losses.length →
      ((checkpointSavesAux best losses).getD i false = true ↔
        losses.getD i 0 < (losses.take i).foldl min best) := by
  intro losses
  induction losses with
  | nil => intro best i hi; simp at hi
  | cons l rest ih =>
    intro best i hi
    cases i with
    | zero =>
      by_cases h : l < best
      · simp [checkpointSavesAux, checkpointStep, h]
      · simp [checkpointSavesAux, checkpointStep, h]
    | succ j =>
      have hj : j < rest.length := by simpa using hi
      simp only [checkpointSavesAux, List.getD_cons_succ, List.take_succ_cons,
        List.foldl_cons]
      rw [checkpointStep_snd best l]
      exact ih (min best l) j hj

/-- C7 (amended): a checkpoint is saved at an evaluation round iff its
validation loss is strictly below the minimum of the initial sentinel
`99999.9` and all previously seen validation losses; on a tie or a regression
nothing is saved. -/
theorem checkpoint_saved_iff_below_running_min :
    ∀ (losses : List ℚ) (i : Nat), i < losses.length →
      ((checkpointSaves losses).getD i false = true ↔
        losses.getD i 0 < (losses.take i).foldl min (999999 / 10)) := by
  intro losses i hi
  exact checkpointSavesAux_getD losses (999999 / 10) i hi

/-- Witness for the amended C7 at a concrete input. -/
theorem checkpoint_saved_iff_below_running_min_witness :
    (checkpointSaves [5, 3, 3, 4]).getD 1 false = true ↔
      ([5, 3, 3, 4] : List ℚ).getD 1 0 <
        (([5, 3, 3, 4] : List ℚ).take 1).foldl min (999999 / 10) :=
  checkpoint_saved_iff_below_running_min [5, 3, 3, 4] 1 (by decide)

/-- C7 counterexample: with validation losses `[100000, 99999.95]`, the
second-round loss strictly decreases below the best loss seen so far
(`100000`), yet no checkpoint is saved, because `best_loss` is initialized to
the sentinel `99999.9` rather than to the first observed loss. -/
theorem checkpoint_claim_counterexample :
    ¬ savedIffBelowSeenMin [100000, 1999999 / 20] := by
  intro h
  have h1 := h 1 (by decide) (by decide)
  have hlt : ([100000, 1999999 / 20] : List ℚ).getD 1 0 <
      (([100000, 1999999 / 20] : List ℚ).take 1).foldl min
        (([100000, 1999999 / 20] : List ℚ).getD 0 0) := by
    simp
    norm_num
  have htrue := h1.mpr hlt
  have hfalse : (checkpointSaves [100000, 1999999 / 20]).getD 1 false = false := by
    have hb1 : ¬ ((100000 : ℚ) < 999999 / 10) := by norm_num
    have hb2 : ¬ ((1999999 / 20 : ℚ) < 999999 / 10) := by norm_num
    simp [checkpointSaves, checkpointSavesAux, checkpointStep, hb1, hb2]
  rw [hfalse] at htrue
  exact Bool.false_ne_true htrue

/-! ## Theorems: evaluation split dispatch -/

/-- C8: every split name other than the designated ones fails immediately with
an error, and the designated names proceed to their loaders. -/
theorem dev_step_split_dispatch :
    ∀ split : String,
      (split ≠ "test_seen" → split ≠ "test_unseen" →
        dev_step_select split = Except.error ()) ∧
      dev_step_select "test_seen" = Except.ok TestLoader.seen ∧
      dev_step_select "test_unseen" = Except.ok TestLoader.unseen := by
  intro split
  refine ⟨fun h1 h2 => ?_, by simp [dev_step_select], by simp [dev_step_select]⟩
  simp [dev_step_select, h1, h2]

/-- Witness for C8 at a concrete input. -/
theorem dev_step_split_dispatch_witness :
    dev_step_select "valid" = Except.error () ∧
      dev_step_select "test_seen" = Except.ok TestLoader.seen ∧
      dev_step_select "test_unseen" = Except.ok TestLoader.unseen :=
  ⟨(dev_step_split_dispatch "valid").1 (by decide) (by decide),
   (dev_step_split_dispatch "valid").2.1,
   (dev_step_split_dispatch "valid").2.2⟩

/-! ## Theorems: gradient clipping and warning -/

/-- C9: at any step whose gradient norm reaches the warning threshold `1e2`,
the step warns, still clips and applies the optimizer update, and performs no
abort, retry or rollback. -/
theorem exploding_gradient_warn_and_continue :
    ∀ grad_norm : ℚ, 100 ≤ grad_norm →
      train_step_tail grad_norm =
        [TrainEvent.clipGrads, TrainEvent.warnExplodingGradients,
          TrainEvent.optimizerStep, TrainEvent.zeroGrad] ∧
      TrainEvent.abort ∉ train_step_tail grad_norm ∧
      TrainEvent.retry ∉ train_step_tail grad_norm ∧
      TrainEvent.rollback ∉ train_step_tail grad_norm := by
  intro g hg
  have heq : train_step_tail g =
      [TrainEvent.clipGrads, TrainEvent.warnExplodingGradients,
        TrainEvent.optimizerStep, TrainEvent.zeroGrad] := by
    simp [train_step_tail, hg]
  refine ⟨heq, ?_, ?_, ?_⟩ <;> rw [heq] <;> decide

/-- Witness for C9 at a concrete input. -/
theorem exploding_gradient_warn_and_continue_witness :
    train_step_tail 150 =
        [TrainEvent.clipGrads, TrainEvent.warnExplodingGradients,
          TrainEvent.optimizerStep, TrainEvent.zeroGrad] ∧
      TrainEvent.abort ∉ train_step_tail 150 ∧
      TrainEvent.retry ∉ train_step_tail 150 ∧
      TrainEvent.rollback ∉ train_step_tail 150 :=
  exploding_gradient_warn_and_continue 150 (by norm_num)

/-! ## Theorems: truncation under `past` -/

theorem lastCol_eq (row : List Int) (h : row ≠ []) :
    lastCol row = [row.getD (row.length - 1) 0] := by
  induction row with
  | nil => exact absurd rfl h
  | cons a t ih =>
    cases t with
    | nil => simp [lastCol]
    | cons b t' =>
      have ht : (b :: t') ≠ [] := by simp
      have hlen : (a :: b :: t').length - 1 = ((b :: t').length - 1) + 1 := by simp
      rw [lastCol, hlen, List.drop_succ_cons, List.getD_cons_succ]
      exact ih ht

theorem lastCol_typeIdsRow (know_id : Int) (user_id : List Int) (row : List Int)
    (h : row ≠ []) :
    lastCol (typeIdsRow know_id user_id row) =
      [nearestPrecSpecial know_id user_id row (row.length - 1)] := by
  have hlen : (typeIdsRow know_id user_id row).length = row.length :=
    typeIdsAux_length know_id user_id row know_id
  have htne : typeIdsRow know_id user_id row ≠ [] := by
    intro hcon
    rw [hcon] at hlen
    exact h (List.length_eq_zero.mp hlen.symm)
  rw [lastCol_eq _ htne, hlen]
  have hi : row.length - 1 < row.length :=
    Nat.sub_lt (List.length_pos.mpr h) one_pos
  exact congrArg (fun x => [x])
    (typeIdsAux_getD know_id user_id row know_id (row.length - 1) hi)

/-- C10: with a truthy `past`, the prepared inputs keep only the final
position of every row, and the single retained token-type label of each row is
the label the full left-to-right segment scan assigns to that row's final
token. -/
theorem past_keeps_last_position_with_final_label :
    ∀ (know_id : Int) (user_id : List Int) (batch : List (List Int)),
      (∀ row ∈ batch, row ≠ []) →
      (∀ r ∈ (prepare_inputs_for_generation know_id user_id true true batch).input_ids,
        r.length = 1) ∧
      (prepare_inputs_for_generation know_id user_id true true batch).token_type_ids =
        some (batch.map
          (fun row => [nearestPrecSpecial know_id user_id row (row.length - 1)])) := by
  intro know_id user_id batch hne
  constructor
  · intro r hr
    simp only [prepare_inputs_for_generation, if_pos, List.mem_map] at hr
    rcases hr with ⟨row, hrow, rfl⟩
    rw [lastCol_eq row (hne row hrow)]
    rfl
  · simp only [prepare_inputs_for_generation, if_pos, List.map_map, Option.some.injEq]
    refine List.map_congr_left ?_
    intro row hrow
    exact lastCol_typeIdsRow know_id user_id row (hne row hrow)

/-- Witness for C10 at a concrete input. -/
theorem past_keeps_last_position_with_final_label_witness :
    (prepare_inputs_for_generation 1 [2, 3] true true [[1, 7, 2]]).token_type_ids =
      some [[2]] := by
  have h := past_keeps_last_position_with_final_label 1 [2, 3] [[1, 7, 2]] (by decide)
  rw [h.2]
  rfl

end GPT2
